import Mathlib

/-!
Shallow embedding of the `cinii` Go package (files `retrieve.go`, `search.go`).

Go strings are modelled as `List Char` (`Str`).  A Go function that can
panic (out-of-range slice index) is modelled with an `Option` result whose
`none` value marks the panic; the Go multiple-return convention
`(ret, ok bool)` with `ok = false` is modelled by an inner `Option` whose
`none` value is the "absent" sentinel.  Effectful std-library calls
(`xml.Unmarshal`, `http.Get`) are abstract parameters of the functions
that use them.
-/

/-- Go strings, modelled as lists of characters. -/
abbrev Str := List Char

/-- Conversion from a Lean string literal to the `Str` model. -/
def str (s : String) : Str := s.data

namespace Cinii

/-- `strings.Replace(s, old, new, 1)`: replace the first (leftmost)
occurrence of `old` in `s` by `new`; `s` unchanged when `old` does not
occur.  (Go inserts `new` at the start when `old` is empty.) -/
def replaceFirst (old new : Str) : Str → Str
  | [] => if old.isEmpty then new else []
  | c :: cs =>
    if old.isPrefixOf (c :: cs) then new ++ List.drop old.length (c :: cs)
    else c :: replaceFirst old new cs

/-- Bounded occurrence check: does `pat` occur as a contiguous sublist of
`s` (at any position)?  Used only to state side conditions. -/
def occursB (pat s : Str) : Bool :=
  (List.range (s.length + 1)).any fun i => pat.isPrefixOf (s.drop i)

/-- `RetrieveEndopoint` from `retrieve.go` (source spelling kept). -/
def RetrieveEndopoint : Str := str "http://ci.nii.ac.jp/ncid"

/-- `OpenSaerchEndpoint` from `search.go` (source spelling kept). -/
def OpenSaerchEndpoint : Str := str "http://ci.nii.ac.jp/books/opensearch/search"

/-- `TextField`: a text node with an optional `xml:lang` attribute. -/
structure TextField where
  lang : Str
  text : Str
  deriving DecidableEq, Repr

/-- `TextFields`, alias for a list of `TextField`. -/
abbrev TextFields := List TextField

/-- `ResourceField`: an `rdf:resource` attribute plus a `dc:title`
attribute (the Go struct embeds `ResourceAttr` and `TitleAttr`). -/
structure ResourceField where
  resource : Str
  title : Str
  deriving DecidableEq, Repr

/-- `NameField`: an identifier-bearing name (`rdf:about` attribute, a
`foaf:name` list, and an `rdfs:seeAlso` resource). -/
structure NameField where
  about : Str
  name : TextFields
  seeAlso : Str
  deriving DecidableEq, Repr

/-- `Author`: wrapper around the `foaf:Person` name field. -/
structure Author where
  author : NameField
  deriving DecidableEq, Repr

/-- `Holding`: wrapper around the `foaf:Organization` name field. -/
structure Holding where
  holding : NameField
  deriving DecidableEq, Repr

/-- `Description`: one `rdf:Description` block, with all fields of the Go
struct (the embedded `AboutAttr` becomes the `about` field; `ResourceAttr`
and `TitleAttr` valued fields become their single string). -/
structure Description where
  about : Str
  type : Str
  isPrimaryTopicOf : Str
  title : TextFields
  alternative : List Str
  creator : Str
  publisher : List Str
  language : Str
  date : Str
  topics : List ResourceField
  ncid : Str
  edition : Str
  isPartOf : List ResourceField
  hasPart : List ResourceField
  contentOfWorks : List Str
  medium : Str
  ownerCount : Int
  lccn : List Int
  seeAlso : List Str
  authors : List Author
  holdings : List Holding
  deriving DecidableEq, Repr

/-- `Record`: the decoded `rdf:RDF` root, a list of `Description`s. -/
structure Record where
  descriptions : List Description
  deriving DecidableEq, Repr

/-- A `Description` with every field empty, used to build test values. -/
def emptyDescription : Description :=
  ⟨[], [], [], [], [], [], [], [], [], [], [], [], [], [], [], [], 0, [], [], [], []⟩

/-- Identifier normalization of `Parents` (`retrieve.go` lines 142-144):
first occurrence of the ncid endpoint removed, then first occurrence of
the `#entity` marker removed. -/
def normParentId (id : Str) : Str :=
  replaceFirst (str "#entity") []
    (replaceFirst (str "http://ci.nii.ac.jp/ncid/") [] id)

/-- Identifier normalization of `Authors` (`retrieve.go` lines 200-202). -/
def normAuthorId (id : Str) : Str :=
  replaceFirst (str "#entity") []
    (replaceFirst (str "http://ci.nii.ac.jp/author/") [] id)

/-- Identifier normalization of `Holdings` (`retrieve.go` line 241): only
the library endpoint is removed, nothing else. -/
def normHoldingId (id : Str) : Str :=
  replaceFirst (str "http://ci.nii.ac.jp/library/") [] id

/-- Identifier normalization inside `NameField.String` (`retrieve.go`
lines 80-82): author endpoint, then library endpoint, then `#entity`. -/
def nameFieldId (about : Str) : Str :=
  replaceFirst (str "#entity") []
    (replaceFirst (str "http://ci.nii.ac.jp/library/") []
      (replaceFirst (str "http://ci.nii.ac.jp/author/") [] about))

/-- The `NameField` `String()` renderer: `Name (Reading) [ID]`, omitting
the empty parts.  `none` models the panic of `n.Name[0]` on an empty name
list. -/
def NameField.string (n : NameField) : Option Str :=
  n.name.head?.map fun n0 =>
    let s1 := n0.text ++
      (match n.name with
        | _ :: n1 :: _ => str " (" ++ n1.text ++ str ")"
        | _ => [])
    if 0 < n.about.length then s1 ++ str " [" ++ nameFieldId n.about ++ str "]"
    else s1

/-- `Record.Title` (`retrieve.go` lines 122-132): builds `["", ""]`, then
walks the first Description's title entries, writing lang-tagged entries
to slot 1 and plain entries to slot 0.  The outer `Option` models the
panic of `r.Descriptions[0]` on a Record with no Description. -/
def Record.title (r : Record) : Option (List Str) :=
  r.descriptions.head?.map fun d =>
    let p := d.title.foldl
      (fun acc t => if 0 < t.lang.length then (acc.1, t.text) else (t.text, acc.2))
      ([], [])
    [p.1, p.2]

/-- `Record.Parents` (`retrieve.go` lines 135-148).  Outer `Option`:
panic of `r.Descriptions[0]`; inner `Option`: the `(nil, false)` absent
sentinel. -/
def Record.parents (r : Record) : Option (Option (List (List Str))) :=
  r.descriptions.head?.map fun d =>
    if d.isPartOf.length = 0 then none
    else some (d.isPartOf.map fun f => [f.title, normParentId f.resource])

/-- `Record.Volumes` (`retrieve.go` lines 151-163). -/
def Record.volumes (r : Record) : Option (Option (List (List Str))) :=
  r.descriptions.head?.map fun d =>
    if d.hasPart.length = 0 then none
    else some (d.hasPart.map fun f =>
      [f.title, replaceFirst (str "urn:isbn:") [] f.resource])

/-- `Record.Topics` (`retrieve.go` lines 166-176). -/
def Record.topics (r : Record) : Option (Option (List Str)) :=
  r.descriptions.head?.map fun d =>
    if d.topics.length = 0 then none
    else some (d.topics.map fun f => f.title)

/-- One row of the `Authors` result (`retrieve.go` lines 199-212):
`[name, reading, normalized local id]`. -/
def authorRow (f : Author) : List Str :=
  let p := f.author.name.foldl
    (fun acc n => if 0 < n.lang.length then (acc.1, n.text) else (n.text, acc.2))
    ([], [])
  [p.1, p.2, normAuthorId f.author.about]

/-- `Record.Authors` (`retrieve.go` lines 179-215): guard on a single
Description, then a loop that overwrites `fields` with every non-empty
author list it meets, then the row construction.  `none` is the
`(nil, false)` absent sentinel; the function cannot panic. -/
def Record.authors (r : Record) : Option (List (List Str)) :=
  if r.descriptions.length = 1 then none
  else
    let fields := r.descriptions.foldl
      (fun acc d => if d.authors.length = 0 then acc else d.authors) []
    if fields.length = 0 then none
    else some (fields.map authorRow)

/-- One row of the `Holdings` result (`retrieve.go` lines 238-243):
`[library name, normalized local id, seeAlso URL]`; `none` models the
panic of `holding.Name[0]` on an empty name list. -/
def holdingRow (f : Holding) : Option (List Str) :=
  f.holding.name.head?.map fun n0 =>
    [n0.text, normHoldingId f.holding.about, f.holding.seeAlso]

/-- All rows of the `Holdings` result, in order; `none` as soon as one
row panics. -/
def holdingRows : List Holding → Option (List (List Str))
  | [] => some []
  | f :: fs =>
    match holdingRow f, holdingRows fs with
    | some row, some rest => some (row :: rest)
    | _, _ => none

/-- `Record.Holdings` (`retrieve.go` lines 218-245): same shape as
`Record.authors`.  Outer `Option`: panic while building a row; inner
`Option`: the `(nil, false)` absent sentinel. -/
def Record.holdings (r : Record) : Option (Option (List (List Str))) :=
  if r.descriptions.length = 1 then some none
  else
    let fields := r.descriptions.foldl
      (fun acc d => if d.holdings.length = 0 then acc else d.holdings) []
    if fields.length = 0 then some none
    else (holdingRows fields).map some

/-- First step of `Get`'s URL normalization (`retrieve.go` lines
249-251): prepend the retrieve endpoint and a slash when the URL does not
already start with the endpoint. -/
def getURL1 (url : Str) : Str :=
  if RetrieveEndopoint.isPrefixOf url then url
  else RetrieveEndopoint ++ str "/" ++ url

/-- Second step (`retrieve.go` lines 252-254): append `.rdf` when the URL
does not already end with it. -/
def getURL2 (url : Str) : Str :=
  if (str ".rdf").isSuffixOf url then url else url ++ str ".rdf"

/-- URL normalization performed by `Get` (`retrieve.go` lines 249-258)
before the HTTP request: the two steps above, then `?appid=<key>`
appended when a non-empty key is given. -/
def getURL (url appid : Str) : Str :=
  if 0 < appid.length then getURL2 (getURL1 url) ++ str "?appid=" ++ appid
  else getURL2 (getURL1 url)

/-- The three error kinds surfaced by the library.  `config` carries the
message built by `errors.New` in `GetAppID`; transport and decode errors
are opaque values produced by the abstracted std-library calls. -/
inductive GoError where
  | config : Str → GoError
  | network : Nat → GoError
  | parse : Nat → GoError
  deriving DecidableEq, Repr

/-- Raw HTTP response bodies. -/
abbrev Bytes := List Nat

/-- `Entry` of the Atom feed (`search.go`). -/
structure Entry where
  title : Str
  id : Str
  authors : List Str
  publisher : Str
  pubDate : Str
  isPartOf : List ResourceField
  hasPart : List Str
  ownerCount : Int
  deriving DecidableEq, Repr

/-- `AtomFeed` (`search.go`): the OpenSearch paging counts and the
entries. -/
structure AtomFeed where
  totalResults : Int
  startIndex : Int
  itemsPerPage : Int
  entries : List Entry
  deriving DecidableEq, Repr

/-- `url.Values`: a mapping from query-parameter names to value lists,
modelled as an association list. -/
abbrev Values := List (Str × List Str)

/-- `url.Values.Get`: the first value bound to the key, or the empty
string when the key is absent or has no values. -/
def Values.get (q : Values) (k : Str) : Str :=
  match q.lookup k with
  | some (v :: _) => v
  | _ => []

/-- `url.Values.Set`: bind the key to the one-element value list. -/
def Values.set (q : Values) (k v : Str) : Values :=
  if (q.lookup k).isSome then
    q.map fun p => if p.1 == k then (k, [v]) else p
  else q ++ [(k, [v])]

/-- `GetAppID` (`search.go` lines 201-208): read the key from the
`CINII_APPID` environment variable (`os.Getenv` yields the empty string
when the variable is unset, so unset and empty coincide), failing with
the configuration error when it is empty. -/
def GetAppID (env : Str) : Except GoError Str :=
  if env.length = 0 then
    .error (.config (str "Set your CiNii appid to CINII_APPID envrionmental variable"))
  else .ok env

/-- The pure opening of `Search` (`search.go` lines 162-169): when
`q.Get("appid")` is empty, source the key from the environment, failing
with `GetAppID`'s error; otherwise leave `q` unchanged. -/
def Search_prepare (q : Values) (env : Str) : Except GoError Values :=
  if (Values.get q (str "appid")).length = 0 then
    match GetAppID env with
    | .error e => .error e
    | .ok appid => .ok (Values.set q (str "appid") appid)
  else .ok q

/-- `Search` (`search.go` lines 162-186), with the effectful std-library
calls abstracted: `encode` stands for `url.Values.Encode`, `httpGet` for
`http.Get` plus `ioutil.ReadAll`, and `unmarshalFeed` for
`xml.Unmarshal`.  Every error aborts the call. -/
def Search (encode : Values → Str) (httpGet : Str → Except GoError Bytes)
    (unmarshalFeed : Bytes → Except GoError AtomFeed)
    (q : Values) (env : Str) : Except GoError AtomFeed :=
  match Search_prepare q env with
  | .error e => .error e
  | .ok q2 =>
    match httpGet (OpenSaerchEndpoint ++ str "?" ++ encode q2) with
    | .error e => .error e
    | .ok body =>
      match unmarshalFeed body with
      | .error e => .error e
      | .ok feed => .ok feed

/-- `Parse` (`retrieve.go` lines 280-289), with `xml.Unmarshal`
abstracted: propagate the decode error, otherwise return the decoded
record. -/
def Parse (unmarshal : Bytes → Except GoError Record) (body : Bytes) :
    Except GoError Record :=
  match unmarshal body with
  | .error e => .error e
  | .ok record => .ok record

/-- `ParseAtomFeed` (`search.go` lines 189-198), with `xml.Unmarshal`
abstracted. -/
def ParseAtomFeed (unmarshal : Bytes → Except GoError AtomFeed) (body : Bytes) :
    Except GoError AtomFeed :=
  match unmarshal body with
  | .error e => .error e
  | .ok feed => .ok feed

/-- Follows the spec's words for the `Authors` accessor (the row shape is
shared with the implementation): the author list of the FIRST Description
whose author list is non-empty, after the single-Description guard.  Kept
for comparison with `Record.authors`, which the source builds with an
overwriting loop. -/
def authorsSpecFirst (r : Record) : Option (List (List Str)) :=
  if r.descriptions.length = 1 then none
  else ((r.descriptions.filter fun d => !(d.authors.length == 0)).head?).map
    fun d => d.authors.map authorRow

/-- Test record: a bibliographic block followed by two author-bearing
Descriptions. -/
def cexAuthors : Record :=
  ⟨[emptyDescription,
    { emptyDescription with authors := [⟨⟨str "a1", [⟨[], str "X"⟩], []⟩⟩] },
    { emptyDescription with authors := [⟨⟨str "a2", [⟨[], str "Y"⟩], []⟩⟩] }]⟩

/-- Test record: a bibliographic block plus one holding block whose
library identifier carries the `#entity` marker. -/
def cexHold : Record :=
  ⟨[emptyDescription,
    { emptyDescription with holdings :=
      [⟨⟨str "http://ci.nii.ac.jp/library/FA012345#entity",
         [⟨[], str "Lib"⟩], str "http://opac.example"⟩⟩] }]⟩

/-- Test record with no Description at all. -/
def recNoDesc : Record := ⟨[]⟩

/-- Test record whose holding block contains a holding with an empty name
list. -/
def recBadHolding : Record :=
  ⟨[emptyDescription,
    { emptyDescription with holdings := [⟨⟨str "x", [], []⟩⟩] }]⟩

/-- Test record with a single Description that carries both authors and
holdings. -/
def recSingle : Record :=
  ⟨[{ emptyDescription with
      authors := [⟨⟨str "a1", [⟨[], str "X"⟩], []⟩⟩],
      holdings := [⟨⟨str "l1", [⟨[], str "L"⟩], []⟩⟩] }]⟩

/-- Test Description carrying the `isPartOf` fixture of the spec. -/
def parentDesc : Description :=
  { emptyDescription with isPartOf :=
    [⟨str "http://ci.nii.ac.jp/ncid/BA1111#entity", str "Parent Series"⟩] }

/-- Test record around `parentDesc`. -/
def parentRec : Record := ⟨[parentDesc]⟩

/-- Test Description with one plain and one lang-tagged title entry, the
lang-tagged one first. -/
def titleDesc : Description :=
  { emptyDescription with title := [⟨str "ja-Kana", str "ヨミ"⟩, ⟨[], str "題"⟩] }

/-- Test record around `titleDesc`. -/
def titleRec : Record := ⟨[titleDesc]⟩

/-- Query mapping in which the `appid` parameter is present but bound to
the empty string. -/
def qPresentEmpty : Values := [(str "appid", [[]])]

/-! Helper lemmas about the string model. -/

lemma isPrefixOf_iff (p s : Str) : p.isPrefixOf s = true ↔ ∃ t, s = p ++ t := by
  induction p generalizing s with
  | nil => simp [List.isPrefixOf]
  | cons a p ih =>
    cases s with
    | nil => simp [List.isPrefixOf]
    | cons b s =>
      simp only [List.isPrefixOf, Bool.and_eq_true, beq_iff_eq, ih, List.cons_append,
        List.cons.injEq]
      constructor
      · rintro ⟨rfl, t, rfl⟩; exact ⟨t, rfl, rfl⟩
      · rintro ⟨t, h1, h2⟩; exact ⟨h1.symm, t, h2⟩

lemma isSuffixOf_iff (e s : Str) : e.isSuffixOf s = true ↔ ∃ t, s = t ++ e := by
  show e.reverse.isPrefixOf s.reverse = true ↔ _
  rw [isPrefixOf_iff]
  constructor
  · rintro ⟨t, h⟩
    refine ⟨t.reverse, ?_⟩
    have := congrArg List.reverse h
    simpa using this
  · rintro ⟨t, rfl⟩
    exact ⟨t.reverse, by simp⟩

lemma isPrefixOf_append (l t : Str) : l.isPrefixOf (l ++ t) = true := by
  rw [isPrefixOf_iff]; exact ⟨t, rfl⟩

lemma replaceFirst_eq_of_isPrefixOf (old new s : Str) (h : old.isPrefixOf s = true) :
    replaceFirst old new s = new ++ s.drop old.length := by
  cases s with
  | nil =>
    rcases (isPrefixOf_iff _ _).1 h with ⟨t, ht⟩
    have : old = [] := by
      cases old with
      | nil => rfl
      | cons a as => simp at ht
    subst this
    simp [replaceFirst]
  | cons c cs => simp [replaceFirst, h]

lemma replaceFirst_append (old new rest : Str) :
    replaceFirst old new (old ++ rest) = new ++ rest := by
  rw [replaceFirst_eq_of_isPrefixOf _ _ _ (isPrefixOf_append _ _)]
  simp

lemma replaceFirst_no_occ (old new : Str) (ho : old ≠ []) :
    ∀ s : Str, (∀ i, old.isPrefixOf (s.drop i) = false) → replaceFirst old new s = s := by
  intro s
  induction s with
  | nil => intro _; simp [replaceFirst, List.isEmpty_iff, ho]
  | cons c cs ih =>
    intro h
    have h0 := h 0
    simp only [List.drop_zero] at h0
    simp only [replaceFirst, h0, if_false, Bool.false_eq_true]
    rw [ih]
    intro i
    have := h (i + 1)
    simpa using this

lemma replaceFirst_suffix (e new : Str) :
    ∀ m : Str, (∀ i, i < m.length → e.isPrefixOf ((m ++ e).drop i) = false) →
      replaceFirst e new (m ++ e) = m ++ new := by
  intro m
  induction m with
  | nil =>
    intro _
    simp only [List.nil_append]
    rw [replaceFirst_eq_of_isPrefixOf e new e]
    · simp
    · rw [isPrefixOf_iff]; exact ⟨[], by simp⟩
  | cons c m ih =>
    intro h
    have h0 := h 0 (by simp)
    simp only [List.drop_zero, List.cons_append] at h0
    show replaceFirst e new (c :: (m ++ e)) = _
    simp only [replaceFirst, h0, if_false, Bool.false_eq_true]
    rw [ih]
    · simp
    · intro i hi
      have := h (i + 1) (by simpa using Nat.succ_lt_succ hi)
      simpa using this

lemma isPrefixOf_head (a : Char) (t l : Str) (h : (a :: t).isPrefixOf l = true) :
    l.head? = some a := by
  rcases (isPrefixOf_iff _ _).1 h with ⟨u, rfl⟩
  rfl

lemma noHash_suffix (m new : Str) (hm : ('#' : Char) ∉ m) :
    replaceFirst (str "#entity") new (m ++ str "#entity") = m ++ new := by
  apply replaceFirst_suffix
  intro i hi
  by_contra hx
  have hx2 : (str "#entity").isPrefixOf ((m ++ str "#entity").drop i) = true := by
    revert hx; cases ((str "#entity").isPrefixOf ((m ++ str "#entity").drop i)) <;> simp
  have hh : ((m ++ str "#entity").drop i).head? = some '#' := isPrefixOf_head _ _ _ hx2
  rw [List.head?_eq_getElem?, List.getElem?_drop] at hh
  simp only [Nat.add_zero] at hh
  rw [List.getElem?_append] at hh
  rw [if_pos hi] at hh
  exact hm (List.getElem?_mem hh)

lemma occursB_false (pat s : Str) (hp : pat ≠ []) (h : occursB pat s = false) :
    ∀ i, pat.isPrefixOf (s.drop i) = false := by
  intro i
  by_cases hi : i ≤ s.length
  · have h2 := List.any_eq_false.1 h i (List.mem_range.2 (Nat.lt_succ_of_le hi))
    simpa only [Bool.not_eq_true] using h2
  · have : s.drop i = [] := List.drop_eq_nil_of_le (le_of_not_le hi)
    rw [this]
    cases pat with
    | nil => exact absurd rfl hp
    | cons a t => rfl

lemma foldl_select {α β : Type} (g : α → List β) (l : List α) :
    ∀ init : List β,
      l.foldl (fun acc x => if (g x).length = 0 then acc else g x) init
        = ((l.filter fun x => !((g x).length == 0)).getLast?).elim init g := by
  induction l with
  | nil => intro init; simp
  | cons a t ih =>
    intro init
    rw [List.foldl_cons, List.filter_cons]
    by_cases hg : (g a).length = 0
    · rw [if_pos hg, if_neg (by simp [hg])]
      exact ih init
    · rw [if_neg hg, if_pos (by simp [hg])]
      rw [ih (g a)]
      cases hft : (t.filter fun x => !((g x).length == 0)) with
      | nil => simp [hft]
      | cons b t2 =>
        rw [List.getLast?_cons_cons]
        cases hgl : (b :: t2).getLast? with
        | none => simp at hgl
        | some x => simp [hgl]

lemma rdf_suffix_transfer (id : Str)
    (h : (str ".rdf").isSuffixOf (RetrieveEndopoint ++ str "/" ++ id) = true) :
    (str ".rdf").isSuffixOf id = true := by
  rcases (isSuffixOf_iff _ _).1 h with ⟨t, heq⟩
  have hE : (RetrieveEndopoint ++ str "/").length = 25 := by decide
  have hlen : 25 + id.length = t.length + 4 := by
    have := congrArg List.length heq
    simp only [List.length_append] at this
    have l1 : RetrieveEndopoint.length = 24 := by decide
    have l2 : (str "/").length = 1 := by decide
    have l3 : (str ".rdf").length = 4 := by decide
    omega
  by_cases h4 : 4 ≤ id.length
  · rw [isSuffixOf_iff]
    refine ⟨t.drop 25, ?_⟩
    have h25 : 25 ≤ t.length := by omega
    have hL : List.drop 25 ((RetrieveEndopoint ++ str "/") ++ id) = id := by
      rw [← hE]
      exact List.drop_left _ id
    have hR : List.drop 25 (t ++ str ".rdf") = t.drop 25 ++ str ".rdf" := by
      rw [List.drop_append_eq_append_drop, Nat.sub_eq_zero_of_le h25, List.drop_zero]
    rw [heq, hR] at hL
    exact hL.symm
  · exfalso
    have ht : t.length = 21 + id.length := by omega
    have hidx : ((RetrieveEndopoint ++ str "/") ++ id)[t.length]?
        = (t ++ str ".rdf")[t.length]? := by rw [heq]
    have hr : (t ++ str ".rdf")[t.length]? = some '.' := by
      rw [List.getElem?_append, if_neg (lt_irrefl _), Nat.sub_self]
      decide
    have hl : ((RetrieveEndopoint ++ str "/") ++ id)[t.length]?
        = (RetrieveEndopoint ++ str "/")[t.length]? := by
      rw [List.getElem?_append, if_pos (by omega)]
    rw [hl, hr] at hidx
    have hc : id.length = 0 ∨ id.length = 1 ∨ id.length = 2 ∨ id.length = 3 := by omega
    rw [ht] at hidx
    rcases hc with h0 | h0 | h0 | h0 <;> rw [h0] at hidx <;> revert hidx <;> decide

/-- The overwriting loop of `Authors`/`Holdings` keeps the LAST non-empty
list it meets: `Record.authors` in closed form. -/
lemma authors_char (r : Record) :
    Record.authors r = if r.descriptions.length = 1 then none
      else ((r.descriptions.filter fun d => !(d.authors.length == 0)).getLast?).map
        fun d => d.authors.map authorRow := by
  unfold Record.authors
  by_cases h1 : r.descriptions.length = 1
  · simp [h1]
  · rw [if_neg h1, if_neg h1]
    simp only [foldl_select (fun d : Description => d.authors) r.descriptions []]
    cases hgl : ((r.descriptions.filter fun d => !(d.authors.length == 0)).getLast?) with
    | none => simp
    | some d =>
      have hmem := List.of_mem_filter (List.mem_of_mem_getLast? hgl)
      have hne : ¬ d.authors.length = 0 := by simpa using hmem
      simp [Option.elim, hne]

/-- `Record.holdings` in closed form, mirroring `authors_char`. -/
lemma holdings_char (r : Record) :
    Record.holdings r = if r.descriptions.length = 1 then some none
      else
        match (r.descriptions.filter fun d => !(d.holdings.length == 0)).getLast? with
        | none => some none
        | some d => (holdingRows d.holdings).map some := by
  unfold Record.holdings
  by_cases h1 : r.descriptions.length = 1
  · simp [h1]
  · rw [if_neg h1, if_neg h1]
    simp only [foldl_select (fun d : Description => d.holdings) r.descriptions []]
    cases hgl : ((r.descriptions.filter fun d => !(d.holdings.length == 0)).getLast?) with
    | none => simp
    | some d =>
      have hmem := List.of_mem_filter (List.mem_of_mem_getLast? hgl)
      have hne : ¬ d.holdings.length = 0 := by simpa using hmem
      simp [Option.elim, hne]

/-- The `Holdings` row loop succeeds when every holding has a non-empty
name list. -/
lemma holdingRows_isSome (fs : List Holding) (h : ∀ f ∈ fs, f.holding.name ≠ []) :
    (holdingRows fs).isSome = true := by
  induction fs with
  | nil => rfl
  | cons f fs ih =>
    have hf := h f (by simp)
    cases hn : f.holding.name with
    | nil => exact absurd hn hf
    | cons n0 ns =>
      have ih2 := ih fun g hg => h g (List.mem_cons_of_mem _ hg)
      obtain ⟨rest, hrest⟩ := Option.isSome_iff_exists.1 ih2
      simp [holdingRows, holdingRow, hn, hrest]

/-! The claims. -/

/-- C1 (counterexample): `Authors` does NOT return the author list of the
first Description with a non-empty author list.  On a Record with a
bibliographic block and two author-bearing Descriptions, the loop keeps
the last one, while the spec's words (`authorsSpecFirst`) pick the first
one. -/
theorem C1_counterexample :
    Record.authors cexAuthors = some [[str "Y", [], str "a2"]]
    ∧ authorsSpecFirst cexAuthors = some [[str "X", [], str "a1"]]
    ∧ Record.authors cexAuthors ≠ authorsSpecFirst cexAuthors := by
  decide

/-- C1 (amended): `Authors` scans all Descriptions and returns the author
list of the LAST Description whose author list is non-empty, as rows
`[name, reading, local id]`; the absent sentinel is returned when the
Record has exactly one Description or no Description carries authors; an
identifier `http://ci.nii.ac.jp/author/12345#entity` is normalized to
`12345`. -/
theorem C1_authors_last (r : Record) :
    Record.authors r
      = (if r.descriptions.length = 1 then none
         else ((r.descriptions.filter fun d => !(d.authors.length == 0)).getLast?).map
           fun d => d.authors.map authorRow)
    ∧ authorRow ⟨⟨str "http://ci.nii.ac.jp/author/12345#entity",
        [⟨[], str "Name"⟩, ⟨str "ja-Kana", str "Yomi"⟩], []⟩⟩
      = [str "Name", str "Yomi", str "12345"] :=
  ⟨authors_char r, by decide⟩

/-- C4 (counterexample): a `Holdings` row does NOT normalize with the
same rule as `Parents`: the `#entity` marker is left in place. -/
theorem C4_counterexample :
    Record.holdings cexHold
      = some (some [[str "Lib", str "FA012345#entity", str "http://opac.example"]])
    ∧ Record.holdings cexHold
      ≠ some (some [[str "Lib", str "FA012345", str "http://opac.example"]]) := by
  decide

/-- C4 (amended): `Holdings` uses the same scanning strategy as `Authors`
(single-Description guard, then the last non-empty holding block); each
row is `[library name, local id, seeAlso URL]` where the local id is
normalized by stripping only the first occurrence of
`http://ci.nii.ac.jp/library/`; the `#entity` marker is NOT removed. -/
theorem C4_holdings_shape (r : Record) :
    (Record.holdings r = if r.descriptions.length = 1 then some none
      else
        match (r.descriptions.filter fun d => !(d.holdings.length == 0)).getLast? with
        | none => some none
        | some d => (holdingRows d.holdings).map some)
    ∧ holdingRow ⟨⟨str "http://ci.nii.ac.jp/library/FA012345",
        [⟨[], str "Lib"⟩], str "http://opac.example"⟩⟩
      = some [str "Lib", str "FA012345", str "http://opac.example"]
    ∧ normHoldingId (str "http://ci.nii.ac.jp/library/FA012345#entity")
      = str "FA012345#entity" :=
  ⟨holdings_char r, by decide, by decide⟩

/-- C9: on a Record with exactly one Description, `Authors` and
`Holdings` return the absent sentinel unconditionally — the guard
precedes any scan of the Descriptions' contents. -/
theorem C9_single_description_guard (r : Record) (h : r.descriptions.length = 1) :
    Record.authors r = none ∧ Record.holdings r = some none := by
  unfold Record.authors Record.holdings
  rw [if_pos h, if_pos h]
  exact ⟨rfl, rfl⟩

/-- C9 witness: a single-Description Record that itself carries both a
non-empty author list and a non-empty holding list. -/
theorem C9_single_description_guard_witness :
    recSingle.descriptions.length = 1
    ∧ (Record.authors recSingle = none ∧ Record.holdings recSingle = some none) :=
  ⟨by decide, C9_single_description_guard recSingle (by decide)⟩

/-- C3 (counterexample): the accessors are NOT total on every decoded
Record value: `Title` fails (index out of range) on a Record with no
Description, and `Holdings` fails on a holding whose name list is empty. -/
theorem C3_counterexample :
    Record.title recNoDesc = none ∧ Record.holdings recBadHolding = none := by
  decide

/-- C3 (amended): `Authors` is total by construction; `Title`, `Parents`,
`Volumes`, `Topics` return a result on every Record with at least one
Description, and `Holdings` returns a result when every holding carries a
non-empty name list; a missing optional section is signalled only by the
absent sentinel, never an error. -/
theorem C3_accessors_total (r : Record) (h : r.descriptions ≠ [])
    (h2 : ∀ d ∈ r.descriptions, ∀ f ∈ d.holdings, f.holding.name ≠ []) :
    (Record.title r).isSome = true ∧ (Record.parents r).isSome = true
    ∧ (Record.volumes r).isSome = true ∧ (Record.topics r).isSome = true
    ∧ (Record.holdings r).isSome = true := by
  cases hd : r.descriptions with
  | nil => exact absurd hd h
  | cons d t =>
    have hh : r.descriptions.head? = some d := by rw [hd]; rfl
    refine ⟨?_, ?_, ?_, ?_, ?_⟩
    · simp [Record.title, hh]
    · simp [Record.parents, hh]
    · simp [Record.volumes, hh]
    · simp [Record.topics, hh]
    · rw [holdings_char]
      by_cases h1 : r.descriptions.length = 1
      · simp [h1]
      · rw [if_neg h1]
        cases hgl : ((r.descriptions.filter fun x => !(x.holdings.length == 0)).getLast?) with
        | none => simp
        | some d2 =>
          have hmem := List.mem_of_mem_filter (List.mem_of_mem_getLast? hgl)
          have hs := holdingRows_isSome d2.holdings (h2 d2 hmem)
          obtain ⟨rows, hrows⟩ := Option.isSome_iff_exists.1 hs
          simp [hrows]

/-- C3 witness: the totality statement evaluated on a concrete
single-Description Record. -/
theorem C3_accessors_total_witness :
    (recSingle.descriptions ≠ []
      ∧ ∀ d ∈ recSingle.descriptions, ∀ f ∈ d.holdings, f.holding.name ≠ [])
    ∧ ((Record.title recSingle).isSome = true ∧ (Record.parents recSingle).isSome = true
        ∧ (Record.volumes recSingle).isSome = true ∧ (Record.topics recSingle).isSome = true
        ∧ (Record.holdings recSingle).isSome = true) :=
  ⟨⟨by decide, by decide⟩, C3_accessors_total recSingle (by decide) (by decide)⟩

/-- C6: when the first Description's title list holds one plain and one
lang-tagged entry, `Title` returns `[plain text, lang-tagged text]` in
that fixed order for both element orders; without a lang-tagged entry the
second slot stays the empty string. -/
theorem C6_title_order (r : Record) (d : Description) (hd : r.descriptions.head? = some d)
    (p lt lg : Str) (hlg : lg ≠ []) :
    ((d.title = [⟨[], p⟩, ⟨lg, lt⟩] ∨ d.title = [⟨lg, lt⟩, ⟨[], p⟩]) →
      Record.title r = some [p, lt])
    ∧ (d.title = [⟨[], p⟩] → Record.title r = some [p, []]) := by
  have hlg2 : 0 < lg.length := List.length_pos.2 hlg
  constructor
  · rintro (ht | ht) <;>
      simp [Record.title, hd, ht, List.foldl, hlg2]
  · intro ht
    simp [Record.title, hd, ht, List.foldl]

/-- C6 witness: the lang-tagged entry comes first in the source, the
plain entry still lands in slot 0. -/
theorem C6_title_order_witness :
    Record.title titleRec = some [str "題", str "ヨミ"] :=
  (C6_title_order titleRec titleDesc rfl (str "題") (str "ヨミ") (str "ja-Kana")
    (by decide)).1 (Or.inr (by decide))

/-- C7: `Parents` maps the first Description's `isPartOf` references to
`[parent title, normalized id]` rows, the identifier losing the
`http://ci.nii.ac.jp/ncid/` prefix and the `#entity` suffix; the absent
sentinel is returned when there are no parent references; the spec's
fixture `http://ci.nii.ac.jp/ncid/BA1111#entity` with title
"Parent Series" yields `[["Parent Series", "BA1111"]]`. -/
theorem C7_parents_ok (r : Record) (d : Description) (hd : r.descriptions.head? = some d) :
    (d.isPartOf.length = 0 → Record.parents r = some none)
    ∧ (d.isPartOf.length ≠ 0 →
        Record.parents r
          = some (some (d.isPartOf.map fun f => [f.title, normParentId f.resource])))
    ∧ (∀ m : Str, ('#' : Char) ∉ m →
        normParentId (str "http://ci.nii.ac.jp/ncid/" ++ m ++ str "#entity") = m)
    ∧ normParentId (str "http://ci.nii.ac.jp/ncid/BA1111#entity") = str "BA1111"
    ∧ Record.parents parentRec = some (some [[str "Parent Series", str "BA1111"]]) := by
  refine ⟨?_, ?_, ?_, by decide, by decide⟩
  · intro h0
    simp [Record.parents, hd, h0]
    exact List.length_eq_zero.1 h0
  · intro h0
    simp [Record.parents, hd, h0]
    exact fun hh => h0 (by simp [hh])
  · intro m hm
    unfold normParentId
    rw [List.append_assoc, replaceFirst_append]
    rw [List.nil_append]
    have := noHash_suffix m [] hm
    rw [this, List.append_nil]

/-- C7 witness: the general row shape evaluated on the fixture record. -/
theorem C7_parents_ok_witness :
    parentDesc.isPartOf.length ≠ 0
    ∧ Record.parents parentRec
      = some (some (parentDesc.isPartOf.map fun f => [f.title, normParentId f.resource])) :=
  ⟨by decide, (C7_parents_ok parentRec parentDesc rfl).2.1 (by decide)⟩

/-- C10: every identifier normalization of the package removes the FIRST
occurrence of each of its known markers wherever that occurrence sits in
the string (last conjunct: a mid-string occurrence is removed), and on
identifiers carrying the endpoint at the start and `#entity` at the end
this coincides with plain prefix/suffix stripping — for `Parents`,
`Authors`, `Holdings` (which only strips the library endpoint) and the
`NameField` renderer. -/
theorem C10_first_occurrence (m : Str) (hm : ('#' : Char) ∉ m)
    (hA : occursB (str "http://ci.nii.ac.jp/author/")
        (str "http://ci.nii.ac.jp/library/" ++ m ++ str "#entity") = false)
    (hL : occursB (str "http://ci.nii.ac.jp/library/") (m ++ str "#entity") = false) :
    normParentId (str "http://ci.nii.ac.jp/ncid/" ++ m ++ str "#entity") = m
    ∧ normAuthorId (str "http://ci.nii.ac.jp/author/" ++ m ++ str "#entity") = m
    ∧ normHoldingId (str "http://ci.nii.ac.jp/library/" ++ m) = m
    ∧ nameFieldId (str "http://ci.nii.ac.jp/author/" ++ m ++ str "#entity") = m
    ∧ nameFieldId (str "http://ci.nii.ac.jp/library/" ++ m ++ str "#entity") = m
    ∧ normAuthorId (str "Zhttp://ci.nii.ac.jp/author/123#entityZ") = str "Z123Z" := by
  have hent : ∀ new : Str, replaceFirst (str "#entity") new (m ++ str "#entity") = m ++ new :=
    fun new => noHash_suffix m new hm
  have hLrw : replaceFirst (str "http://ci.nii.ac.jp/library/") [] (m ++ str "#entity")
      = m ++ str "#entity" :=
    replaceFirst_no_occ _ _ (by decide) _ (occursB_false _ _ (by decide) hL)
  refine ⟨?_, ?_, ?_, ?_, ?_, by decide⟩
  · unfold normParentId
    rw [List.append_assoc, replaceFirst_append, List.nil_append, hent, List.append_nil]
  · unfold normAuthorId
    rw [List.append_assoc, replaceFirst_append, List.nil_append, hent, List.append_nil]
  · unfold normHoldingId
    rw [replaceFirst_append, List.nil_append]
  · unfold nameFieldId
    rw [List.append_assoc, replaceFirst_append, List.nil_append, hLrw, hent, List.append_nil]
  · unfold nameFieldId
    have hArw : replaceFirst (str "http://ci.nii.ac.jp/author/") []
        (str "http://ci.nii.ac.jp/library/" ++ m ++ str "#entity")
        = str "http://ci.nii.ac.jp/library/" ++ m ++ str "#entity" :=
      replaceFirst_no_occ _ _ (by decide) _ (occursB_false _ _ (by decide) hA)
    rw [hArw, List.append_assoc, replaceFirst_append, List.nil_append, hent, List.append_nil]

/-- C10 witness: the stripping statement evaluated at the local id
`12345`. -/
theorem C10_first_occurrence_witness :
    normAuthorId (str "http://ci.nii.ac.jp/author/" ++ str "12345" ++ str "#entity")
      = str "12345"
    ∧ nameFieldId (str "http://ci.nii.ac.jp/library/" ++ str "12345" ++ str "#entity")
      = str "12345" :=
  ⟨(C10_first_occurrence (str "12345") (by decide) (by decide) (by decide)).2.1,
   (C10_first_occurrence (str "12345") (by decide) (by decide) (by decide)).2.2.2.2.1⟩

/-- The first normalization step always leaves a URL carrying the
endpoint at its start. -/
lemma getURL1_pre (url : Str) : RetrieveEndopoint.isPrefixOf (getURL1 url) = true := by
  unfold getURL1
  by_cases h : RetrieveEndopoint.isPrefixOf url = true
  · rw [if_pos h]; exact h
  · rw [if_neg h, List.append_assoc]
    exact isPrefixOf_append _ _

/-- The second normalization step always leaves a URL ending in
`.rdf`. -/
lemma getURL2_suf (url : Str) : (str ".rdf").isSuffixOf (getURL2 url) = true := by
  unfold getURL2
  by_cases h : (str ".rdf").isSuffixOf url = true
  · rw [if_pos h]; exact h
  · rw [if_neg h]
    exact (isSuffixOf_iff _ _).2 ⟨url, rfl⟩

/-- The second normalization step preserves the endpoint at the start. -/
lemma getURL2_pre (url : Str) (h : RetrieveEndopoint.isPrefixOf url = true) :
    RetrieveEndopoint.isPrefixOf (getURL2 url) = true := by
  unfold getURL2
  by_cases hs : (str ".rdf").isSuffixOf url = true
  · rw [if_pos hs]; exact h
  · rw [if_neg hs]
    rcases (isPrefixOf_iff _ _).1 h with ⟨t, rfl⟩
    rw [List.append_assoc]
    exact isPrefixOf_append _ _

/-- C2 (counterexample): re-normalizing an already-normalized URL with
the same non-empty key is NOT idempotent — a second `.rdf` suffix and a
second `appid` parameter are appended. -/
theorem C2_counterexample :
    getURL (getURL (str "BB19132110") (str "KEY")) (str "KEY")
      = str "http://ci.nii.ac.jp/ncid/BB19132110.rdf?appid=KEY.rdf?appid=KEY"
    ∧ getURL (getURL (str "BB19132110") (str "KEY")) (str "KEY")
      ≠ getURL (str "BB19132110") (str "KEY") := by
  decide

/-- C2 (amended): a bare identifier without endpoint and without `.rdf`
suffix normalizes to `<endpoint>/<id>.rdf`, with `?appid=<key>` appended
exactly when the key is non-empty; re-normalization is idempotent when no
key is appended (with a non-empty key it is not, see the
counterexample). -/
theorem C2_getURL_normalize (id key : Str)
    (h1 : RetrieveEndopoint.isPrefixOf id = false)
    (h2 : (str ".rdf").isSuffixOf id = false) :
    getURL id key
      = RetrieveEndopoint ++ str "/" ++ id ++ str ".rdf"
        ++ (if 0 < key.length then str "?appid=" ++ key else [])
    ∧ getURL (getURL id []) [] = getURL id [] := by
  have e2 : ∀ u : Str, RetrieveEndopoint.isPrefixOf u = true → getURL1 u = u := by
    intro u hp
    unfold getURL1
    rw [if_pos hp]
  have e3 : ∀ u : Str, (str ".rdf").isSuffixOf u = true → getURL2 u = u := by
    intro u hs2
    unfold getURL2
    rw [if_pos hs2]
  constructor
  · have hs : (str ".rdf").isSuffixOf (RetrieveEndopoint ++ str "/" ++ id) = false := by
      cases hx : (str ".rdf").isSuffixOf (RetrieveEndopoint ++ str "/" ++ id) with
      | false => rfl
      | true => exact absurd (rdf_suffix_transfer id hx) (by simp [h2])
    have g1 : getURL1 id = RetrieveEndopoint ++ str "/" ++ id := by
      unfold getURL1
      rw [if_neg (by rw [h1]; decide)]
    have g2 : getURL2 (getURL1 id) = RetrieveEndopoint ++ str "/" ++ id ++ str ".rdf" := by
      rw [g1]
      unfold getURL2
      rw [if_neg (by rw [hs]; decide)]
    unfold getURL
    rw [g2]
    by_cases hk : 0 < key.length
    · rw [if_pos hk, if_pos hk]
      simp [List.append_assoc]
    · rw [if_neg hk, if_neg hk]
      simp
  · have e1 : ∀ u : Str, getURL u [] = getURL2 (getURL1 u) := by
      intro u
      unfold getURL
      rw [if_neg (by decide)]
    rw [e1, e1, e2 _ (getURL2_pre _ (getURL1_pre id)), e3 _ (getURL2_suf _)]

/-- C2 witness: the normalization statement evaluated on the bare id of
the spec's round-trip property. -/
theorem C2_getURL_normalize_witness :
    getURL (str "BB19132110") (str "KEY")
      = RetrieveEndopoint ++ str "/" ++ str "BB19132110" ++ str ".rdf"
        ++ (if 0 < (str "KEY").length then str "?appid=" ++ str "KEY" else [])
    ∧ getURL (getURL (str "BB19132110") []) [] = getURL (str "BB19132110") [] :=
  C2_getURL_normalize (str "BB19132110") (str "KEY") (by decide) (by decide)

/-- C5 (counterexample): with the `appid` parameter PRESENT but bound to
the empty string, the environment IS consulted — its value flows into the
query. -/
theorem C5_counterexample :
    (qPresentEmpty.lookup (str "appid")).isSome = true
    ∧ Search_prepare qPresentEmpty (str "EK")
      = .ok (Values.set qPresentEmpty (str "appid") (str "EK"))
    ∧ Values.set qPresentEmpty (str "appid") (str "EK") ≠ qPresentEmpty :=
  ⟨by decide, by rfl, by decide⟩

/-- C5 (amended): when the `appid` parameter carries a non-empty value
the environment is not consulted; when it is absent or empty, the key is
read from `CINII_APPID`, and `Search` fails with the configuration error
— whatever the HTTP transport would answer, so before any request — when
that variable is unset/empty. -/
theorem C5_search_appid (q : Values) (env env2 : Str) :
    ((Values.get q (str "appid")).length ≠ 0 →
      Search_prepare q env = .ok q ∧ Search_prepare q env = Search_prepare q env2)
    ∧ ((Values.get q (str "appid")).length = 0 → env.length = 0 →
        Search_prepare q env
          = .error (.config (str "Set your CiNii appid to CINII_APPID envrionmental variable"))
        ∧ ∀ (encode : Values → Str) (httpGet : Str → Except GoError Bytes)
            (unmarshalFeed : Bytes → Except GoError AtomFeed),
            Search encode httpGet unmarshalFeed q env
              = .error (.config (str "Set your CiNii appid to CINII_APPID envrionmental variable")))
    ∧ ((Values.get q (str "appid")).length = 0 → env.length ≠ 0 →
        Search_prepare q env = .ok (Values.set q (str "appid") env)) := by
  refine ⟨?_, ?_, ?_⟩
  · intro h
    unfold Search_prepare
    rw [if_neg h, if_neg h]
    exact ⟨rfl, rfl⟩
  · intro h he
    have hsp : Search_prepare q env
        = .error (.config (str "Set your CiNii appid to CINII_APPID envrionmental variable")) := by
      unfold Search_prepare GetAppID
      rw [if_pos h, if_pos he]
    refine ⟨hsp, ?_⟩
    intro encode httpGet unmarshalFeed
    unfold Search
    rw [hsp]
  · intro h he
    unfold Search_prepare GetAppID
    rw [if_pos h, if_neg he]

/-- C5 witness: the three branches evaluated on concrete query mappings
and environment values. -/
theorem C5_search_appid_witness :
    (Search_prepare [(str "appid", [str "K"])] (str "E") = .ok [(str "appid", [str "K"])]
      ∧ Search_prepare [(str "appid", [str "K"])] (str "E")
        = Search_prepare [(str "appid", [str "K"])] (str "F"))
    ∧ Search_prepare [] []
      = .error (.config (str "Set your CiNii appid to CINII_APPID envrionmental variable"))
    ∧ Search_prepare [] (str "E") = .ok (Values.set [] (str "appid") (str "E")) :=
  ⟨(C5_search_appid [(str "appid", [str "K"])] (str "E") (str "F")).1 (by decide),
   ((C5_search_appid [] [] []).2.1 (by decide) (by decide)).1,
   (C5_search_appid [] (str "E") []).2.2 (by decide) (by decide)⟩

/-- C8: when the XML decoder reports an error on a body (as `encoding/xml`
does on malformed input), both `Parse` and `ParseAtomFeed` return exactly
that error and never a successful partial result. -/
theorem C8_parse_propagates (u1 : Bytes → Except GoError Record)
    (u2 : Bytes → Except GoError AtomFeed) (body : Bytes) (e1 e2 : GoError) :
    (u1 body = .error e1 →
      Parse u1 body = .error e1 ∧ ∀ rec, Parse u1 body ≠ .ok rec)
    ∧ (u2 body = .error e2 →
        ParseAtomFeed u2 body = .error e2 ∧ ∀ feed, ParseAtomFeed u2 body ≠ .ok feed) := by
  constructor
  · intro h
    have hp : Parse u1 body = .error e1 := by
      unfold Parse
      rw [h]
    exact ⟨hp, fun rec hc => Except.noConfusion (hp.symm.trans hc)⟩
  · intro h
    have hp : ParseAtomFeed u2 body = .error e2 := by
      unfold ParseAtomFeed
      rw [h]
    exact ⟨hp, fun feed hc => Except.noConfusion (hp.symm.trans hc)⟩

/-- C8 witness: both parsers evaluated with a decoder that rejects the
body. -/
theorem C8_parse_propagates_witness :
    Parse (fun _ => .error (.parse 0)) [] = .error (.parse 0)
    ∧ ParseAtomFeed (fun _ => .error (.parse 1)) [] = .error (.parse 1) :=
  ⟨((C8_parse_propagates (fun _ => .error (.parse 0)) (fun _ => .error (.parse 1))
      [] (.parse 0) (.parse 1)).1 rfl).1,
   ((C8_parse_propagates (fun _ => .error (.parse 0)) (fun _ => .error (.parse 1))
      [] (.parse 0) (.parse 1)).2 rfl).1⟩

end Cinii
